import Mathlib

/-!
Verification of the petal-computation core of `pyvenn` (`venn/_venn.py`).

The Python source is shallowly embedded as follows:

* a Python `set` of hashables becomes a `Finset α` (with decidable equality);
* a pattern string over `{0,1}` becomes a `List Char`;
* Python exceptions (`TypeError` from calling `set.union` / `set.intersection`
  with no argument, `ZeroDivisionError` from the percentage division,
  `KeyError` from a dict lookup, `ValueError` raised by `venn`) become the
  error side of `Except`;
* a Python dict built by inserting distinct keys in a fixed order becomes an
  association list in insertion order;
* the float `percentage = 100 * len(petal_set) / universe_size` becomes the
  exact rational of the same expression (the division is the only float
  operation in the core; it is modelled exactly).
-/

namespace PyVenn

/-- Errors a run of the embedded code can raise, mirroring the Python
exceptions that the corresponding operations raise. -/
inductive PyError where
  | typeError : PyError
  | zeroDivision : PyError
  | keyError : PyError
  | valueError : String → PyError
deriving DecidableEq

instance instDecEqExcept {ε σ : Type} [DecidableEq ε] [DecidableEq σ] :
    DecidableEq (Except ε σ) := fun a b =>
  match a, b with
  | Except.error e1, Except.error e2 =>
    if h : e1 = e2 then isTrue (by rw [h])
    else isFalse (by intro hh; cases hh; exact h rfl)
  | Except.error _, Except.ok _ => isFalse (by intro hh; cases hh)
  | Except.ok _, Except.error _ => isFalse (by intro hh; cases hh)
  | Except.ok v1, Except.ok v2 =>
    if h : v1 = v2 then isTrue (by rw [h])
    else isFalse (by intro hh; cases hh; exact h rfl)

/-- Sequential loop that collects one result per element and aborts at the
first raised error, exactly like a Python `for` loop building a list/dict. -/
def exceptMap {β γ : Type} (f : β → Except PyError γ) : List β → Except PyError (List γ)
  | [] => Except.ok []
  | b :: bs =>
    match f b with
    | Except.error e => Except.error e
    | Except.ok c =>
      match exceptMap f bs with
      | Except.error e => Except.error e
      | Except.ok cs => Except.ok (c :: cs)

/-- Binary digits of `i`, most significant first, with explicit fuel so the
definition is structurally recursive (the fuel is irrelevant once it is at
least `i`, see `binDigitsAux_irrel`). -/
def binDigitsAux : Nat → Nat → List Char
  | 0, _ => []
  | fuel + 1, i =>
    if i = 0 then []
    else binDigitsAux fuel (i / 2) ++ [if i % 2 = 1 then '1' else '0']

/-- Binary digits of `i`, most significant first; empty for `i = 0`. -/
def binDigits (i : Nat) : List Char := binDigitsAux i i

/-- Embedding of Python `bin(i)[2:]` (for a natural `i`). -/
def natToBin (i : Nat) : List Char := if i = 0 then ['0'] else binDigits i

/-- Embedding of Python `str.zfill`: left-pad with `'0'` to length `n`. -/
def zfill (n : Nat) (s : List Char) : List Char :=
  List.replicate (n - s.length) '0' ++ s

/-- Embedding of `generate_logics` from `venn/_venn.py`: for `i` in
`range(1, 2**n_sets)`, yield `bin(i)[2:].zfill(n_sets)`. -/
def generate_logics (n_sets : Nat) : List (List Char) :=
  (List.range' 1 (2 ^ n_sets - 1)).map (fun i => zfill n_sets (natToBin i))

/-- Numeric value of a pattern string read as a binary numeral (specification
device used to state ordering/coverage claims). -/
def binVal (s : List Char) : Nat :=
  s.foldl (fun a c => 2 * a + (if c = '1' then 1 else 0)) 0

/-- Bit contributed by one pattern character. -/
def bitVal (c : Char) : Nat := if c = '1' then 1 else 0

theorem bitVal_le_one (c : Char) : bitVal c ≤ 1 := by
  unfold bitVal; split <;> omega

theorem binVal_foldl (s : List Char) :
    ∀ a : Nat, s.foldl (fun a c => 2 * a + (if c = '1' then 1 else 0)) a
      = a * 2 ^ s.length + binVal s := by
  induction s with
  | nil => intro a; simp [binVal]
  | cons c s ih =>
    intro a
    simp only [List.foldl_cons, List.length_cons, binVal]
    rw [ih, ih]
    ring

theorem binVal_cons (c : Char) (s : List Char) :
    binVal (c :: s) = bitVal c * 2 ^ s.length + binVal s := by
  show (c :: s).foldl _ 0 = _
  show s.foldl _ (2 * 0 + (if c = '1' then 1 else 0)) = _
  rw [binVal_foldl]
  simp [bitVal]

theorem binVal_append (s t : List Char) :
    binVal (s ++ t) = binVal s * 2 ^ t.length + binVal t := by
  show (s ++ t).foldl _ 0 = _
  rw [List.foldl_append, binVal_foldl]
  rfl

theorem binVal_snoc (s : List Char) (c : Char) :
    binVal (s ++ [c]) = 2 * binVal s + bitVal c := by
  rw [binVal_append]
  have h1 : binVal [c] = bitVal c := by
    show List.foldl _ 0 [c] = _
    simp [bitVal]
  rw [h1]
  simp
  ring

theorem binVal_lt (s : List Char) : binVal s < 2 ^ s.length := by
  induction s with
  | nil => simp [binVal]
  | cons c s ih =>
    rw [binVal_cons]
    have hb := bitVal_le_one c
    have : 2 ^ (c :: s).length = 2 ^ s.length + 2 ^ s.length := by
      simp [List.length_cons, pow_succ]; ring
    rw [this]
    have h2 : bitVal c * 2 ^ s.length ≤ 2 ^ s.length := by
      calc bitVal c * 2 ^ s.length ≤ 1 * 2 ^ s.length := by
            exact Nat.mul_le_mul_right _ hb
        _ = 2 ^ s.length := by ring
    omega

theorem binVal_replicate_zero (k : Nat) : binVal (List.replicate k '0') = 0 := by
  induction k with
  | zero => simp [binVal]
  | succ k ih =>
    rw [List.replicate_succ, binVal_cons]
    simp [bitVal, ih]

theorem binVal_zfill (n : Nat) (s : List Char) : binVal (zfill n s) = binVal s := by
  unfold zfill
  rw [binVal_append, binVal_replicate_zero]
  simp

theorem binVal_eq_zero_of_not_mem (s : List Char) (h : '1' ∉ s) : binVal s = 0 := by
  induction s with
  | nil => simp [binVal]
  | cons c s ih =>
    rw [binVal_cons]
    have hc : c ≠ '1' := fun hc => h (by simp [hc])
    have hs : '1' ∉ s := fun hs => h (by simp [hs])
    simp [bitVal, hc, ih hs]

theorem one_le_binVal_of_mem (s : List Char) (h : '1' ∈ s) : 1 ≤ binVal s := by
  induction s with
  | nil => simp at h
  | cons c s ih =>
    rw [binVal_cons]
    rcases List.mem_cons.mp h with hc | hs
    · have : bitVal c = 1 := by simp [bitVal, hc.symm]
      have : 1 ≤ bitVal c * 2 ^ s.length := by
        rw [this]; simpa using Nat.one_le_two_pow
      omega
    · have := ih hs
      omega

theorem eq_replicate_of_binVal_zero (s : List Char)
    (hbin : ∀ c ∈ s, c = '0' ∨ c = '1') (h : binVal s = 0) :
    s = List.replicate s.length '0' := by
  have h1 : '1' ∉ s := by
    intro hm
    have := one_le_binVal_of_mem s hm
    omega
  refine List.eq_replicate_iff.mpr ⟨rfl, ?_⟩
  intro b hb
  rcases hbin b hb with h0 | h0
  · exact h0
  · exact absurd (h0 ▸ hb) h1

theorem binDigitsAux_zero (fuel : Nat) : binDigitsAux fuel 0 = [] := by
  cases fuel
  · simp [binDigitsAux]
  · simp [binDigitsAux]

theorem binDigitsAux_irrel : ∀ f1 : Nat, ∀ i, i ≤ f1 → ∀ f2, i ≤ f2 →
    binDigitsAux f1 i = binDigitsAux f2 i := by
  intro f1
  induction f1 with
  | zero =>
    intro i hi f2 _
    have h0 : i = 0 := Nat.le_zero.mp hi
    subst h0
    rw [binDigitsAux_zero, binDigitsAux_zero]
  | succ f ih =>
    intro i hi f2 hi2
    cases i with
    | zero => rw [binDigitsAux_zero, binDigitsAux_zero]
    | succ m =>
      cases f2 with
      | zero => omega
      | succ g =>
        show binDigitsAux (f + 1) (m + 1) = binDigitsAux (g + 1) (m + 1)
        simp only [binDigitsAux, Nat.succ_ne_zero, if_false]
        congr 1
        exact ih ((m + 1) / 2) (by omega) g (by omega)

theorem binDigits_succ (n : Nat) :
    binDigits (n + 1) = binDigits ((n + 1) / 2) ++ [if (n + 1) % 2 = 1 then '1' else '0'] := by
  unfold binDigits
  show binDigitsAux (n + 1) (n + 1) = _
  simp only [binDigitsAux, Nat.succ_ne_zero, if_false]
  congr 1
  exact binDigitsAux_irrel n ((n + 1) / 2) (by omega) ((n + 1) / 2) (by omega)

theorem binVal_binDigits (i : Nat) : binVal (binDigits i) = i := by
  induction i using Nat.strong_induction_on with
  | _ i ih =>
    cases i with
    | zero => simp [binDigits, binDigitsAux, binVal]
    | succ n =>
      rw [binDigits_succ, binVal_snoc, ih ((n + 1) / 2) (by omega)]
      have : bitVal (if (n + 1) % 2 = 1 then '1' else '0') = (n + 1) % 2 := by
        by_cases h : (n + 1) % 2 = 1 <;> simp [bitVal, h] <;> omega
      rw [this]
      omega

theorem binDigits_length_le : ∀ i n : Nat, i < 2 ^ n → (binDigits i).length ≤ n := by
  intro i
  induction i using Nat.strong_induction_on with
  | _ i ih =>
    intro n hlt
    cases i with
    | zero => simp [binDigits, binDigitsAux]
    | succ m =>
      cases n with
      | zero => simp at hlt
      | succ k =>
        rw [binDigits_succ, List.length_append]
        have hdiv : (m + 1) / 2 < 2 ^ k := by
          rw [Nat.div_lt_iff_lt_mul (by omega)]
          calc m + 1 < 2 ^ (k + 1) := hlt
            _ = 2 ^ k * 2 := by ring
        have := ih ((m + 1) / 2) (by omega) k hdiv
        simp
        omega

theorem binDigits_binary (i : Nat) : ∀ c ∈ binDigits i, c = '0' ∨ c = '1' := by
  induction i using Nat.strong_induction_on with
  | _ i ih =>
    cases i with
    | zero => simp [binDigits, binDigitsAux]
    | succ m =>
      rw [binDigits_succ]
      intro c hc
      rcases List.mem_append.mp hc with h | h
      · exact ih ((m + 1) / 2) (by omega) c h
      · simp at h
        subst h
        by_cases hm : (m + 1) % 2 = 1 <;> simp [hm]

theorem zfill_length (n : Nat) (s : List Char) (h : s.length ≤ n) :
    (zfill n s).length = n := by
  unfold zfill
  simp
  omega

theorem zfill_binary (n : Nat) (s : List Char) (hs : ∀ c ∈ s, c = '0' ∨ c = '1') :
    ∀ c ∈ zfill n s, c = '0' ∨ c = '1' := by
  intro c hc
  unfold zfill at hc
  rcases List.mem_append.mp hc with h | h
  · left; exact List.eq_of_mem_replicate h
  · exact hs c h

/-- Round trip: a `{0,1}`-string of positive value is recovered from its value
by `bin`-then-`zfill`. -/
theorem zfill_natToBin_binVal : ∀ p : List Char,
    (∀ c ∈ p, c = '0' ∨ c = '1') → 1 ≤ binVal p →
    zfill p.length (natToBin (binVal p)) = p := by
  intro p
  induction p using List.reverseRecOn with
  | nil =>
    intro _ hpos
    simp [binVal] at hpos
  | append_singleton q c ih =>
    intro hbin hpos
    have hqbin : ∀ x ∈ q, x = '0' ∨ x = '1' := fun x hx => hbin x (by simp [hx])
    have hcbin : c = '0' ∨ c = '1' := hbin c (by simp)
    rw [binVal_snoc] at hpos ⊢
    by_cases hv : binVal q = 0
    · have hq : q = List.replicate q.length '0' := eq_replicate_of_binVal_zero q hqbin hv
      have hc1 : c = '1' := by
        rcases hcbin with h0 | h1
        · subst h0; simp [bitVal, hv] at hpos
        · exact h1
      subst hc1
      have hb1 : bitVal '1' = 1 := by simp [bitVal]
      rw [hv, hb1]
      have : natToBin (2 * 0 + 1) = ['1'] := by decide
      rw [this]
      show List.replicate ((q ++ ['1']).length - 1) '0' ++ ['1'] = q ++ ['1']
      have hlen : (q ++ ['1']).length - 1 = q.length := by simp
      rw [hlen]
      conv_rhs => rw [hq]
    · have hv1 : 1 ≤ binVal q := by omega
      have ihq := ih hqbin hv1
      have hb := bitVal_le_one c
      have hne : 2 * binVal q + bitVal c ≠ 0 := by omega
      -- unfold natToBin on a positive argument
      have hbinq : natToBin (binVal q) = binDigits (binVal q) := by
        unfold natToBin
        simp [hv]
      rw [hbinq] at ihq
      have hstep : natToBin (2 * binVal q + bitVal c)
          = binDigits (binVal q) ++ [c] := by
        unfold natToBin
        rw [if_neg hne]
        obtain ⟨m, hm⟩ : ∃ m, 2 * binVal q + bitVal c = m + 1 :=
          ⟨2 * binVal q + bitVal c - 1, by omega⟩
        rw [hm, binDigits_succ]
        have hdiv : (m + 1) / 2 = binVal q := by omega
        have hmod : (m + 1) % 2 = bitVal c := by omega
        rw [hdiv, hmod]
        congr 1
        rcases hcbin with h0 | h1
        · subst h0; simp [bitVal]
        · subst h1; simp [bitVal]
      rw [hstep]
      -- lengths
      have hL : (binDigits (binVal q)).length ≤ q.length :=
        binDigits_length_le (binVal q) q.length (binVal_lt q)
      show List.replicate ((q ++ [c]).length - ((binDigits (binVal q)) ++ [c]).length) '0'
          ++ (binDigits (binVal q) ++ [c]) = q ++ [c]
      have hlen2 : (q ++ [c]).length - ((binDigits (binVal q)) ++ [c]).length
          = q.length - (binDigits (binVal q)).length := by
        simp
      rw [hlen2, ← List.append_assoc]
      have : List.replicate (q.length - (binDigits (binVal q)).length) '0'
          ++ binDigits (binVal q) = q := ihq
      rw [this]

/-- Characterization of the pattern sequence: a string is produced by
`generate_logics n` iff it has length `n`, is over `{0,1}`, and denotes a
positive binary value. -/
theorem mem_generate_logics (n : Nat) (p : List Char) :
    p ∈ generate_logics n ↔
      p.length = n ∧ (∀ c ∈ p, c = '0' ∨ c = '1') ∧ 1 ≤ binVal p := by
  constructor
  · intro hp
    unfold generate_logics at hp
    rcases List.mem_map.mp hp with ⟨i, hi, rfl⟩
    rcases List.mem_range'_1.mp hi with ⟨h1, h2⟩
    have h2n : i < 2 ^ n := by
      have : 1 ≤ 2 ^ n := Nat.one_le_two_pow
      omega
    have hnz : i ≠ 0 := by omega
    have hnat : natToBin i = binDigits i := by unfold natToBin; simp [hnz]
    refine ⟨?_, ?_, ?_⟩
    · rw [hnat]
      exact zfill_length n _ (binDigits_length_le i n h2n)
    · rw [hnat]
      exact zfill_binary n _ (binDigits_binary i)
    · rw [binVal_zfill, hnat, binVal_binDigits]
      omega
  · rintro ⟨hlen, hbin, hpos⟩
    unfold generate_logics
    refine List.mem_map.mpr ⟨binVal p, ?_, ?_⟩
    · refine List.mem_range'_1.mpr ⟨hpos, ?_⟩
      have := binVal_lt p
      rw [hlen] at this
      have h1 : 1 ≤ 2 ^ n := Nat.one_le_two_pow
      omega
    · rw [← hlen]
      exact zfill_natToBin_binVal p hbin hpos

theorem generate_logics_length (n : Nat) :
    (generate_logics n).length = 2 ^ n - 1 := by
  unfold generate_logics
  simp

theorem generate_logics_getD (n k : Nat) (hk : k < 2 ^ n - 1) :
    binVal ((generate_logics n).getD k []) = k + 1 := by
  have hk2 : k < (generate_logics n).length := by
    rw [generate_logics_length]; exact hk
  rw [List.getD_eq_getElem _ _ hk2]
  unfold generate_logics
  have hk3 : k < (List.range' 1 (2 ^ n - 1)).length := by simpa using hk
  rw [List.getElem_map]
  rw [List.getElem_range']
  rw [binVal_zfill]
  have : 1 + 1 * k ≠ 0 := by omega
  unfold natToBin
  rw [if_neg this, binVal_binDigits]
  omega

theorem generate_logics_get_binVal (n k : Nat) (hk : k < (generate_logics n).length) :
    binVal ((generate_logics n).get ⟨k, hk⟩) = k + 1 := by
  have hk2 : k < 2 ^ n - 1 := by
    have := generate_logics_length n
    omega
  have h := generate_logics_getD n k hk2
  rwa [List.getD_eq_getElem _ _ hk] at h

theorem generate_logics_pairwise (n : Nat) :
    (generate_logics n).Pairwise (fun p q => binVal p < binVal q) := by
  rw [List.pairwise_iff_getElem]
  intro i j hi hj hij
  have h1 := generate_logics_get_binVal n i hi
  have h2 := generate_logics_get_binVal n j hj
  simp only [List.get_eq_getElem] at h1 h2
  omega

theorem generate_logics_nodup (n : Nat) : (generate_logics n).Nodup :=
  (generate_logics_pairwise n).imp (fun h => by
    intro heq
    subst heq
    omega)

theorem replicate_zero_not_mem (n : Nat) :
    List.replicate n '0' ∉ generate_logics n := by
  intro h
  rcases (mem_generate_logics n _).mp h with ⟨_, _, hpos⟩
  rw [binVal_replicate_zero] at hpos
  omega

/-- C2: for every N with 2 ≤ N ≤ 6, `generate_logics N` is a list of exactly
2^N − 1 distinct strings, each of length N over the alphabet {0,1}, whose
k-th element denotes the value k+1 in binary (hence the values are strictly
ascending and cover 1 through 2^N − 1), and the all-zero string is absent. -/
theorem C2_generate_logics (n : Nat) (h2 : 2 ≤ n) (h6 : n ≤ 6) :
    (generate_logics n).length = 2 ^ n - 1 ∧
    (generate_logics n).Nodup ∧
    (∀ p ∈ generate_logics n, p.length = n ∧ ∀ c ∈ p, c = '0' ∨ c = '1') ∧
    (∀ k, k < 2 ^ n - 1 → binVal ((generate_logics n).getD k []) = k + 1) ∧
    (generate_logics n).Pairwise (fun p q => binVal p < binVal q) ∧
    List.replicate n '0' ∉ generate_logics n := by
  refine ⟨generate_logics_length n, generate_logics_nodup n, ?_, ?_, ?_, ?_⟩
  · intro p hp
    rcases (mem_generate_logics n p).mp hp with ⟨hlen, hbin, _⟩
    exact ⟨hlen, hbin⟩
  · intro k hk
    exact generate_logics_getD n k hk
  · exact generate_logics_pairwise n
  · exact replicate_zero_not_mem n

theorem C2_generate_logics_witness :
    (generate_logics 2).length = 2 ^ 2 - 1 ∧
    (generate_logics 2).Nodup ∧
    (∀ p ∈ generate_logics 2, p.length = 2 ∧ ∀ c ∈ p, c = '0' ∨ c = '1') ∧
    (∀ k, k < 2 ^ 2 - 1 → binVal ((generate_logics 2).getD k []) = k + 1) ∧
    (generate_logics 2).Pairwise (fun p q => binVal p < binVal q) ∧
    List.replicate 2 '0' ∉ generate_logics 2 :=
  C2_generate_logics 2 (by decide) (by decide)

/-! Embedding of the set algebra used by `generate_petals`. -/

/-- Embedding of variadic `set.union(*xs)`: a `TypeError` on an empty
argument list, otherwise the left fold of union over the remaining sets. -/
def setUnionV {α : Type} [DecidableEq α] (xs : List (Finset α)) : Except PyError (Finset α) :=
  match xs with
  | [] => Except.error PyError.typeError
  | x :: rest => Except.ok (rest.foldl (fun a s => a ∪ s) x)

/-- Embedding of variadic `set.intersection(*xs)`: a `TypeError` on an empty
argument list, otherwise the left fold of intersection. -/
def setIntersection {α : Type} [DecidableEq α] (xs : List (Finset α)) : Except PyError (Finset α) :=
  match xs with
  | [] => Except.error PyError.typeError
  | x :: rest => Except.ok (rest.foldl (fun a s => a ∩ s) x)

/-- Embedding of the comprehension
`[datasets[i] for i in range(n_sets) if logic[i] == "1"]`. -/
def included_sets {α : Type} [DecidableEq α] (datasets : List (Finset α)) (logic : List Char) :
    List (Finset α) :=
  (((List.range datasets.length).filter (fun i => logic.getD i ' ' == '1')).map
    (fun i => datasets.getD i ∅))

/-- Embedding of the comprehension
`[datasets[i] for i in range(n_sets) if logic[i] == "0"]`. -/
def excluded_sets {α : Type} [DecidableEq α] (datasets : List (Finset α)) (logic : List Char) :
    List (Finset α) :=
  (((List.range datasets.length).filter (fun i => logic.getD i ' ' == '0')).map
    (fun i => datasets.getD i ∅))

/-- Embedding of the petal-set expression inside the loop of
`generate_petals`:
`(dataset_union & set.intersection(*included_sets)) - set.union(set(), *excluded_sets)`. -/
def petal_set {α : Type} [DecidableEq α] (datasets : List (Finset α)) (dataset_union : Finset α)
    (logic : List Char) : Except PyError (Finset α) :=
  match setIntersection (included_sets datasets logic) with
  | Except.error e => Except.error e
  | Except.ok inter =>
    Except.ok ((dataset_union ∩ inter) \
      ((excluded_sets datasets logic).foldl (fun a s => a ∪ s) ∅))

/-- Round-half-even of a rational to an integer, the tie-breaking used by
Python float formatting. -/
def roundHalfEven (q : ℚ) : ℤ :=
  let f : ℤ := Int.fdiv q.num (q.den : ℤ)
  let r : ℚ := q - (f : ℚ)
  if r < 1 / 2 then f
  else if 1 / 2 < r then f + 1
  else if f % 2 = 0 then f else f + 1

/-- Fixed-point rendering of a rational with one fractional digit, as Python
float formatting with one fractional digit produces. -/
def fmtFixed1 (q : ℚ) : String :=
  let t := roundHalfEven (q * 10)
  if t < 0 then ("-" ++ toString ((-t) / 10) ++ "." ++ toString ((-t) % 10))
  else (toString (t / 10) ++ "." ++ toString (t % 10))

/-- Embedding of the default template of `generate_petals`, which renders the
size and then the percentage with one fractional digit between parentheses. -/
def defaultFmt (_logic : List Char) (size : Nat) (percentage : ℚ) : String :=
  toString size ++ " (" ++ fmtFixed1 percentage ++ "%)"

/-- Embedding of one iteration of the loop of `generate_petals`: compute the
petal set, then the percentage (a `ZeroDivisionError` when the universe is
empty, as in Python integer-by-integer true division), then the formatted
entry for the result dict. -/
def petalEntry {α : Type} [DecidableEq α] (datasets : List (Finset α)) (dataset_union : Finset α)
    (fmt : List Char → Nat → ℚ → String) (logic : List Char) :
    Except PyError (List Char × String) :=
  match petal_set datasets dataset_union logic with
  | Except.error e => Except.error e
  | Except.ok s =>
    if dataset_union.card = 0 then Except.error PyError.zeroDivision
    else Except.ok (logic, fmt logic s.card
      ((100 * (s.card : ℚ)) / (dataset_union.card : ℚ)))

/-- Embedding of `generate_petals` from `venn/_venn.py`. The Python dict
`petals`, filled in loop order with the distinct keys produced by
`generate_logics`, is represented as the association list of its entries in
insertion order. -/
def generate_petals {α : Type} [DecidableEq α] (datasets : List (Finset α))
    (fmt : List Char → Nat → ℚ → String := defaultFmt) :
    Except PyError (List (List Char × String)) :=
  match setUnionV datasets with
  | Except.error e => Except.error e
  | Except.ok dataset_union =>
    exceptMap (petalEntry datasets dataset_union fmt) (generate_logics datasets.length)

/-! Helper lemmas about the loop combinator and the set folds. -/

theorem exceptMap_ok_of_forall {β γ : Type} (f : β → Except PyError γ) :
    ∀ l : List β, (∀ b ∈ l, ∃ c, f b = Except.ok c) →
    ∃ cs, exceptMap f l = Except.ok cs ∧
      List.Forall₂ (fun b c => f b = Except.ok c) l cs := by
  intro l
  induction l with
  | nil => intro _; exact ⟨[], rfl, List.Forall₂.nil⟩
  | cons b bs ih =>
    intro h
    obtain ⟨c, hc⟩ := h b (by simp)
    obtain ⟨cs, hcs, hf⟩ := ih (fun x hx => h x (by simp [hx]))
    refine ⟨c :: cs, ?_, List.Forall₂.cons hc hf⟩
    unfold exceptMap
    rw [hc, hcs]

theorem exceptMap_ok_forall {β γ : Type} (f : β → Except PyError γ) :
    ∀ (l : List β) (cs : List γ), exceptMap f l = Except.ok cs →
    List.Forall₂ (fun b c => f b = Except.ok c) l cs := by
  intro l
  induction l with
  | nil =>
    intro cs h
    unfold exceptMap at h
    injection h with h
    rw [← h]
    exact List.Forall₂.nil
  | cons b bs ih =>
    intro cs h
    unfold exceptMap at h
    cases hb : f b with
    | error e => rw [hb] at h; cases h
    | ok c =>
      rw [hb] at h
      cases hbs : exceptMap f bs with
      | error e => rw [hbs] at h; cases h
      | ok cs2 =>
        rw [hbs] at h
        injection h with h
        rw [← h]
        exact List.Forall₂.cons hb (ih cs2 hbs)

theorem exceptMap_error_of_mem {β γ : Type} (f : β → Except PyError γ) (e0 : PyError) :
    ∀ l : List β, (∀ b ∈ l, (∃ c, f b = Except.ok c) ∨ f b = Except.error e0) →
    (∃ b ∈ l, f b = Except.error e0) → exceptMap f l = Except.error e0 := by
  intro l
  induction l with
  | nil => rintro _ ⟨b, hb, _⟩; simp at hb
  | cons b bs ih =>
    rintro hall ⟨b0, hb0, herr⟩
    cases hb : f b with
    | error e =>
      have he : e = e0 := by
        rcases hall b (by simp) with ⟨c, hc⟩ | hc
        · rw [hb] at hc; cases hc
        · rw [hb] at hc; simpa using hc
      unfold exceptMap
      rw [hb, he]
    | ok c =>
      have hbs : ∃ x ∈ bs, f x = Except.error e0 := by
        rcases List.mem_cons.mp hb0 with rfl | hmem
        · rw [hb] at herr; cases herr
        · exact ⟨b0, hmem, herr⟩
      unfold exceptMap
      rw [hb, ih (fun x hx => hall x (by simp [hx])) hbs]

theorem mem_foldl_union {α : Type} [DecidableEq α] (l : List (Finset α)) :
    ∀ (a : Finset α) (x : α),
      x ∈ l.foldl (fun a s => a ∪ s) a ↔ x ∈ a ∨ ∃ s ∈ l, x ∈ s := by
  induction l with
  | nil => intro a x; simp
  | cons s t ih =>
    intro a x
    simp only [List.foldl_cons]
    rw [ih]
    simp [Finset.mem_union]
    tauto

theorem mem_foldl_inter {α : Type} [DecidableEq α] (l : List (Finset α)) :
    ∀ (a : Finset α) (x : α),
      x ∈ l.foldl (fun a s => a ∩ s) a ↔ x ∈ a ∧ ∀ s ∈ l, x ∈ s := by
  induction l with
  | nil => intro a x; simp
  | cons s t ih =>
    intro a x
    simp only [List.foldl_cons]
    rw [ih]
    simp [Finset.mem_inter]
    tauto

theorem mem_setUnionV {α : Type} [DecidableEq α] (d : List (Finset α)) (U : Finset α)
    (h : setUnionV d = Except.ok U) (x : α) : x ∈ U ↔ ∃ s ∈ d, x ∈ s := by
  cases d with
  | nil => cases h
  | cons s t =>
    unfold setUnionV at h
    injection h with h
    rw [← h, mem_foldl_union]
    simp

theorem setUnionV_ne_nil {α : Type} [DecidableEq α] (d : List (Finset α)) (U : Finset α)
    (h : setUnionV d = Except.ok U) : d ≠ [] := by
  intro hd
  subst hd
  cases h

theorem mem_included_sets {α : Type} [DecidableEq α] (d : List (Finset α)) (p : List Char)
    (s : Finset α) :
    s ∈ included_sets d p ↔
      ∃ i, i < d.length ∧ p.getD i ' ' = '1' ∧ s = d.getD i ∅ := by
  unfold included_sets
  constructor
  · intro hs
    rcases List.mem_map.mp hs with ⟨i, hi, rfl⟩
    rcases List.mem_filter.mp hi with ⟨hir, hpi⟩
    exact ⟨i, List.mem_range.mp hir, by simpa using hpi, rfl⟩
  · rintro ⟨i, hi, hpi, rfl⟩
    exact List.mem_map.mpr
      ⟨i, List.mem_filter.mpr ⟨List.mem_range.mpr hi, by simpa using hpi⟩, rfl⟩

theorem mem_excluded_sets {α : Type} [DecidableEq α] (d : List (Finset α)) (p : List Char)
    (s : Finset α) :
    s ∈ excluded_sets d p ↔
      ∃ i, i < d.length ∧ p.getD i ' ' = '0' ∧ s = d.getD i ∅ := by
  unfold excluded_sets
  constructor
  · intro hs
    rcases List.mem_map.mp hs with ⟨i, hi, rfl⟩
    rcases List.mem_filter.mp hi with ⟨hir, hpi⟩
    exact ⟨i, List.mem_range.mp hir, by simpa using hpi, rfl⟩
  · rintro ⟨i, hi, hpi, rfl⟩
    exact List.mem_map.mpr
      ⟨i, List.mem_filter.mpr ⟨List.mem_range.mpr hi, by simpa using hpi⟩, rfl⟩

theorem petal_set_exists {α : Type} [DecidableEq α] (d : List (Finset α)) (U : Finset α)
    (p : List Char) (hp : ∃ i, i < d.length ∧ p.getD i ' ' = '1') :
    ∃ S, petal_set d U p = Except.ok S := by
  obtain ⟨i0, hi0, hp0⟩ := hp
  have hmem : d.getD i0 ∅ ∈ included_sets d p :=
    (mem_included_sets d p _).mpr ⟨i0, hi0, hp0, rfl⟩
  cases hinc : included_sets d p with
  | nil => rw [hinc] at hmem; simp at hmem
  | cons s0 rest =>
    refine ⟨(U ∩ rest.foldl (fun a s => a ∩ s) s0) \
      ((excluded_sets d p).foldl (fun a s => a ∪ s) ∅), ?_⟩
    unfold petal_set
    rw [hinc]
    rfl

theorem mem_petal_set {α : Type} [DecidableEq α] (d : List (Finset α)) (U : Finset α)
    (p : List Char) (S : Finset α) (h : petal_set d U p = Except.ok S) (x : α) :
    x ∈ S ↔ x ∈ U ∧ (∀ s ∈ included_sets d p, x ∈ s) ∧
      (∀ s ∈ excluded_sets d p, x ∉ s) := by
  unfold petal_set at h
  cases hinc : included_sets d p with
  | nil =>
    rw [hinc] at h
    cases h
  | cons s0 rest =>
    rw [hinc] at h
    unfold setIntersection at h
    injection h with h
    rw [← h]
    rw [Finset.mem_sdiff, Finset.mem_inter, mem_foldl_inter, mem_foldl_union]
    constructor
    · rintro ⟨⟨hU, h0, hrest⟩, hexc⟩
      refine ⟨hU, ?_, ?_⟩
      · intro s hs
        rcases List.mem_cons.mp hs with rfl | hs2
        · exact h0
        · exact hrest s hs2
      · intro s hs hx
        exact hexc (Or.inr ⟨s, hs, hx⟩)
    · rintro ⟨hU, hincl, hexcl⟩
      refine ⟨⟨hU, ?_, ?_⟩, ?_⟩
      · exact hincl s0 (by simp)
      · intro s hs
        exact hincl s (by simp [hs])
      · rintro (habs | ⟨s, hs, hx⟩)
        · simp at habs
        · exact hexcl s hs hx

theorem getD_mem_of_lt {β : Type} (l : List β) (i : Nat) (x0 : β) (h : i < l.length) :
    l.getD i x0 ∈ l := by
  rw [List.getD_eq_getElem _ _ h]
  exact List.getElem_mem h

/-- Membership in a petal, phrased positionally for a length-matching `{0,1}`
pattern: an element of the petal is an element of the universe whose
per-dataset membership matches the pattern bit for bit. -/
theorem mem_petal_set_pattern {α : Type} [DecidableEq α] (d : List (Finset α)) (U : Finset α)
    (p : List Char) (S : Finset α) (hlen : p.length = d.length)
    (hbin : ∀ c ∈ p, c = '0' ∨ c = '1')
    (h : petal_set d U p = Except.ok S) (x : α) :
    x ∈ S ↔ x ∈ U ∧ ∀ i, i < d.length → (x ∈ d.getD i ∅ ↔ p.getD i ' ' = '1') := by
  rw [mem_petal_set d U p S h x]
  have hchar : ∀ i, i < d.length → p.getD i ' ' = '0' ∨ p.getD i ' ' = '1' := by
    intro i hi
    exact hbin _ (getD_mem_of_lt p i ' ' (by omega))
  constructor
  · rintro ⟨hU, hincl, hexcl⟩
    refine ⟨hU, ?_⟩
    intro i hi
    constructor
    · intro hx
      rcases hchar i hi with h0 | h1
      · exact absurd hx (hexcl _ ((mem_excluded_sets d p _).mpr ⟨i, hi, h0, rfl⟩))
      · exact h1
    · intro h1
      exact hincl _ ((mem_included_sets d p _).mpr ⟨i, hi, h1, rfl⟩)
  · rintro ⟨hU, hiff⟩
    refine ⟨hU, ?_, ?_⟩
    · intro s hs
      rcases (mem_included_sets d p s).mp hs with ⟨i, hi, hpi, rfl⟩
      exact (hiff i hi).mpr hpi
    · intro s hs hx
      rcases (mem_excluded_sets d p s).mp hs with ⟨i, hi, hpi, rfl⟩
      have := (hiff i hi).mp hx
      rw [hpi] at this
      exact absurd this (by decide)

theorem logic_has_one (n : Nat) (p : List Char) (hp : p ∈ generate_logics n) :
    ∃ i, i < n ∧ p.getD i ' ' = '1' := by
  rcases (mem_generate_logics n p).mp hp with ⟨hlen, _, hpos⟩
  have h1 : '1' ∈ p := by
    by_contra h
    have := binVal_eq_zero_of_not_mem p h
    omega
  obtain ⟨i, hi, hpi⟩ := List.getElem_of_mem h1
  refine ⟨i, by omega, ?_⟩
  rw [List.getD_eq_getElem _ _ hi, hpi]

/-- Membership pattern of an element across the datasets (proof device for
the partition argument). -/
def patternOf {α : Type} [DecidableEq α] (d : List (Finset α)) (x : α) : List Char :=
  (List.range d.length).map (fun i => if x ∈ d.getD i ∅ then '1' else '0')

theorem patternOf_length {α : Type} [DecidableEq α] (d : List (Finset α)) (x : α) :
    (patternOf d x).length = d.length := by
  simp [patternOf]

theorem patternOf_getD {α : Type} [DecidableEq α] (d : List (Finset α)) (x : α)
    (i : Nat) (hi : i < d.length) :
    (patternOf d x).getD i ' ' = if x ∈ d.getD i ∅ then '1' else '0' := by
  unfold patternOf
  rw [List.getD_eq_getElem _ _ (by simpa using hi), List.getElem_map, List.getElem_range]

theorem patternOf_binary {α : Type} [DecidableEq α] (d : List (Finset α)) (x : α) :
    ∀ c ∈ patternOf d x, c = '0' ∨ c = '1' := by
  intro c hc
  rcases List.mem_map.mp hc with ⟨i, _, rfl⟩
  by_cases h : x ∈ d.getD i ∅
  · rw [if_pos h]; right; rfl
  · rw [if_neg h]; left; rfl

theorem patternOf_mem_logics {α : Type} [DecidableEq α] (d : List (Finset α)) (U : Finset α)
    (x : α) (hU : setUnionV d = Except.ok U) (hx : x ∈ U) :
    patternOf d x ∈ generate_logics d.length := by
  refine (mem_generate_logics _ _).mpr
    ⟨patternOf_length d x, patternOf_binary d x, ?_⟩
  obtain ⟨s, hs, hxs⟩ := (mem_setUnionV d U hU x).mp hx
  obtain ⟨j, hj, rfl⟩ := List.getElem_of_mem hs
  apply one_le_binVal_of_mem
  have hpj : (patternOf d x).getD j ' ' = '1' := by
    rw [patternOf_getD d x j hj, List.getD_eq_getElem _ _ hj, if_pos hxs]
  have hm := getD_mem_of_lt (patternOf d x) j ' ' (by rw [patternOf_length]; exact hj)
  rwa [hpj] at hm

theorem ext_getD {β : Type} (l1 l2 : List β) (x0 : β) (h : l1.length = l2.length)
    (hg : ∀ i, i < l1.length → l1.getD i x0 = l2.getD i x0) : l1 = l2 := by
  apply List.ext_getElem h
  intro i h1 h2
  have := hg i h1
  rwa [List.getD_eq_getElem _ _ h1, List.getD_eq_getElem _ _ h2] at this

theorem card_foldl_union {α : Type} [DecidableEq α] :
    ∀ (S : List (Finset α)) (a : Finset α), S.Pairwise Disjoint →
    (∀ s ∈ S, Disjoint a s) →
    (S.foldl (fun a s => a ∪ s) a).card = a.card + (S.map Finset.card).sum := by
  intro S
  induction S with
  | nil => intro a _ _; simp
  | cons s t ih =>
    intro a hp hd
    simp only [List.foldl_cons, List.map_cons, List.sum_cons]
    have hd2 : ∀ u ∈ t, Disjoint (a ∪ s) u := by
      intro u hu
      exact Finset.disjoint_union_left.mpr
        ⟨hd u (by simp [hu]), (List.pairwise_cons.mp hp).1 u hu⟩
    rw [ih (a ∪ s) (List.pairwise_cons.mp hp).2 hd2,
      Finset.card_union_of_disjoint (hd s (by simp))]
    ring

/-- C1: for every dataset sequence whose union (the Universe) is non-empty,
the petal sets computed for the patterns of `generate_logics` are all
computed without error, are pairwise disjoint, their union is the Universe,
and the sum of their sizes is the size of the Universe. -/
theorem C1_partition {α : Type} [DecidableEq α] (datasets : List (Finset α)) (U : Finset α)
    (hU : setUnionV datasets = Except.ok U) (hne : U.Nonempty) :
    ∃ S : List (Finset α),
      exceptMap (petal_set datasets U) (generate_logics datasets.length) = Except.ok S ∧
      (∀ i j, i < S.length → j < S.length → i ≠ j →
        Disjoint (S.getD i ∅) (S.getD j ∅)) ∧
      S.foldl (fun a s => a ∪ s) ∅ = U ∧
      (S.map Finset.card).sum = U.card := by
  have hex : ∀ p ∈ generate_logics datasets.length,
      ∃ T, petal_set datasets U p = Except.ok T :=
    fun p hp => petal_set_exists datasets U p (logic_has_one _ p hp)
  obtain ⟨S, hS, hF⟩ := exceptMap_ok_of_forall _ _ hex
  have hlen : (generate_logics datasets.length).length = S.length := hF.length_eq
  have hget := (List.forall₂_iff_get.mp hF).2
  have hpetal : ∀ k, k < S.length →
      petal_set datasets U ((generate_logics datasets.length).getD k [])
        = Except.ok (S.getD k ∅) := by
    intro k hk
    have hkl : k < (generate_logics datasets.length).length := by omega
    rw [List.getD_eq_getElem _ _ hkl, List.getD_eq_getElem _ _ hk]
    have := hget k hkl hk
    simpa using this
  have hmemk : ∀ k, k < S.length →
      (generate_logics datasets.length).getD k [] ∈ generate_logics datasets.length := by
    intro k hk
    exact getD_mem_of_lt _ k [] (by omega)
  have hchar : ∀ k, k < S.length → ∀ x : α,
      x ∈ S.getD k ∅ ↔ x ∈ U ∧ ∀ i, i < datasets.length →
        (x ∈ datasets.getD i ∅ ↔
          ((generate_logics datasets.length).getD k []).getD i ' ' = '1') := by
    intro k hk x
    rcases (mem_generate_logics _ _).mp (hmemk k hk) with ⟨hplen, hpbin, _⟩
    exact mem_petal_set_pattern datasets U _ _ hplen hpbin (hpetal k hk) x
  have hgl := generate_logics_length datasets.length
  have hdisj : ∀ i j, i < S.length → j < S.length → i ≠ j →
      Disjoint (S.getD i ∅) (S.getD j ∅) := by
    intro i j hi hj hij
    rw [Finset.disjoint_left]
    intro x hxi hxj
    have hci := (hchar i hi x).mp hxi
    have hcj := (hchar j hj x).mp hxj
    rcases (mem_generate_logics _ _).mp (hmemk i hi) with ⟨hleni, hbini, _⟩
    rcases (mem_generate_logics _ _).mp (hmemk j hj) with ⟨hlenj, hbinj, _⟩
    have heq : (generate_logics datasets.length).getD i []
        = (generate_logics datasets.length).getD j [] := by
      apply ext_getD _ _ ' ' (by rw [hleni, hlenj])
      intro m hm
      rw [hleni] at hm
      have hiff : (((generate_logics datasets.length).getD i []).getD m ' ' = '1')
          ↔ (((generate_logics datasets.length).getD j []).getD m ' ' = '1') :=
        (hci.2 m hm).symm.trans (hcj.2 m hm)
      have hbi := hbini _ (getD_mem_of_lt _ m ' ' (by omega))
      have hbj := hbinj _ (getD_mem_of_lt _ m ' ' (by omega))
      rcases hbi with h0 | h1
      · rcases hbj with h0p | h1p
        · rw [h0, h0p]
        · exfalso
          have := hiff.mpr h1p
          rw [h0] at this
          exact absurd this (by decide)
      · rw [h1, hiff.mp h1]
    have hvi := generate_logics_getD datasets.length i (by omega)
    have hvj := generate_logics_getD datasets.length j (by omega)
    rw [heq] at hvi
    omega
  have hunion : S.foldl (fun a s => a ∪ s) ∅ = U := by
    apply Finset.ext
    intro x
    rw [mem_foldl_union]
    simp only [Finset.not_mem_empty, false_or]
    constructor
    · rintro ⟨s, hs, hxs⟩
      obtain ⟨k, hk, rfl⟩ := List.getElem_of_mem hs
      exact ((hchar k hk x).mp (by rwa [List.getD_eq_getElem _ _ hk])).1
    · intro hxU
      have hpx : patternOf datasets x ∈ generate_logics datasets.length :=
        patternOf_mem_logics datasets U x hU hxU
      obtain ⟨k, hkl, hpk⟩ := List.getElem_of_mem hpx
      have hk : k < S.length := by omega
      refine ⟨S.getD k ∅, getD_mem_of_lt _ k ∅ hk, ?_⟩
      rw [hchar k hk x]
      refine ⟨hxU, ?_⟩
      intro m hm
      have hkey : (generate_logics datasets.length).getD k [] = patternOf datasets x := by
        rw [List.getD_eq_getElem _ _ hkl, hpk]
      rw [hkey, patternOf_getD datasets x m hm]
      by_cases hxm : x ∈ datasets.getD m ∅
      · simp [hxm]
      · simp [hxm]
  have hpw : S.Pairwise Disjoint := by
    rw [List.pairwise_iff_getElem]
    intro i j hi hj hij
    have := hdisj i j hi hj (by omega)
    rwa [List.getD_eq_getElem _ _ hi, List.getD_eq_getElem _ _ hj] at this
  have hcard := card_foldl_union S ∅ hpw (by intro s hs; simp)
  rw [hunion] at hcard
  exact ⟨S, hS, hdisj, hunion, by simpa using hcard.symm⟩

theorem C1_partition_witness :
    setUnionV [({1, 2} : Finset ℕ), {2, 3}] = Except.ok {1, 2, 3} ∧
    ({1, 2, 3} : Finset ℕ).Nonempty ∧
    (∃ S : List (Finset ℕ),
      exceptMap (petal_set [({1, 2} : Finset ℕ), {2, 3}] {1, 2, 3})
        (generate_logics ([({1, 2} : Finset ℕ), {2, 3}]).length) = Except.ok S ∧
      (∀ i j, i < S.length → j < S.length → i ≠ j →
        Disjoint (S.getD i ∅) (S.getD j ∅)) ∧
      S.foldl (fun a s => a ∪ s) ∅ = {1, 2, 3} ∧
      (S.map Finset.card).sum = ({1, 2, 3} : Finset ℕ).card) :=
  ⟨by decide, by decide,
    C1_partition [({1, 2} : Finset ℕ), {2, 3}] {1, 2, 3} (by decide) (by decide)⟩

theorem petalEntry_ok {α : Type} [DecidableEq α] (d : List (Finset α)) (U : Finset α)
    (fmt : List Char → Nat → ℚ → String) (p : List Char)
    (hcard : U.card ≠ 0) (hp : ∃ i, i < d.length ∧ p.getD i ' ' = '1') :
    ∃ c, petalEntry d U fmt p = Except.ok c := by
  obtain ⟨S, hS⟩ := petal_set_exists d U p hp
  refine ⟨(p, fmt p S.card ((100 * (S.card : ℚ)) / (U.card : ℚ))), ?_⟩
  unfold petalEntry
  rw [hS]
  show (if U.card = 0 then Except.error PyError.zeroDivision
    else Except.ok (p, fmt p S.card ((100 * (S.card : ℚ)) / (U.card : ℚ)))) = _
  rw [if_neg hcard]

theorem petalEntry_fst {α : Type} [DecidableEq α] (d : List (Finset α)) (U : Finset α)
    (fmt : List Char → Nat → ℚ → String) (p : List Char) (c : List Char × String)
    (h : petalEntry d U fmt p = Except.ok c) : c.1 = p := by
  unfold petalEntry at h
  cases hS : petal_set d U p with
  | error e => rw [hS] at h; cases h
  | ok s =>
    rw [hS] at h
    change (if U.card = 0 then Except.error PyError.zeroDivision
      else Except.ok (p, fmt p s.card ((100 * (s.card : ℚ)) / (U.card : ℚ))))
      = Except.ok c at h
    by_cases hc : U.card = 0
    · rw [if_pos hc] at h; cases h
    · rw [if_neg hc] at h
      injection h with h
      rw [← h]

/-- Shared success lemma: on a non-empty universe the loop of
`generate_petals` raises nothing and its keys are, in order, exactly the
patterns of `generate_logics`. -/
theorem generate_petals_ok_aux {α : Type} [DecidableEq α] (d : List (Finset α))
    (fmt : List Char → Nat → ℚ → String) (U : Finset α)
    (hU : setUnionV d = Except.ok U) (hne : U.Nonempty) :
    ∃ m, generate_petals d fmt = Except.ok m ∧
      m.map Prod.fst = generate_logics d.length := by
  have hcard : U.card ≠ 0 := by
    have := Finset.card_pos.mpr hne
    omega
  have hex : ∀ p ∈ generate_logics d.length, ∃ c, petalEntry d U fmt p = Except.ok c :=
    fun p hp => petalEntry_ok d U fmt p hcard (logic_has_one _ p hp)
  obtain ⟨m, hm, hF⟩ := exceptMap_ok_of_forall _ _ hex
  refine ⟨m, ?_, ?_⟩
  · unfold generate_petals
    rw [hU]
    exact hm
  · have hlen : (generate_logics d.length).length = m.length := hF.length_eq
    have hget := (List.forall₂_iff_get.mp hF).2
    apply List.ext_getElem (by simpa using hlen.symm)
    intro k h1 h2
    have hkm : k < m.length := by simpa using h1
    have hkl : k < (generate_logics d.length).length := h2
    rw [List.getElem_map]
    have := hget k hkl hkm
    simp only [List.get_eq_getElem] at this
    exact petalEntry_fst d U fmt _ _ this

/-- C4: whenever the universe is non-empty, `generate_petals` succeeds and
the keys of the resulting mapping are exactly (and in order) the patterns of
`generate_logics` for N = number of datasets: no omissions, no extras. -/
theorem C4_keys {α : Type} [DecidableEq α] (d : List (Finset α))
    (fmt : List Char → Nat → ℚ → String) (U : Finset α)
    (hU : setUnionV d = Except.ok U) (hne : U.Nonempty) :
    ∃ m, generate_petals d fmt = Except.ok m ∧
      m.map Prod.fst = generate_logics d.length :=
  generate_petals_ok_aux d fmt U hU hne

theorem C4_keys_witness :
    setUnionV [({1, 2, 3} : Finset ℕ), {2, 3, 4}] = Except.ok {1, 2, 3, 4} ∧
    ({1, 2, 3, 4} : Finset ℕ).Nonempty ∧
    (∃ m, generate_petals [({1, 2, 3} : Finset ℕ), {2, 3, 4}] (fun _ _ _ => "") =
        Except.ok m ∧
      m.map Prod.fst = generate_logics ([({1, 2, 3} : Finset ℕ), {2, 3, 4}]).length) :=
  ⟨by decide, by decide,
    C4_keys [({1, 2, 3} : Finset ℕ), {2, 3, 4}] (fun _ _ _ => "") {1, 2, 3, 4}
      (by decide) (by decide)⟩

/-- C10: `generate_petals` performs no validation of the number of datasets:
for every dataset list with a non-empty union — of any length N ≥ 1,
including N = 1 and N = 7 — it returns a complete mapping of 2^N − 1 entries
without raising. (The [2,6] diagram range is enforced in `venn` alone; see
the `venn` theorems.) -/
theorem C10_no_cardinality_validation {α : Type} [DecidableEq α] (d : List (Finset α))
    (fmt : List Char → Nat → ℚ → String) (U : Finset α)
    (hU : setUnionV d = Except.ok U) (hne : U.Nonempty) :
    ∃ m, generate_petals d fmt = Except.ok m ∧ m.length = 2 ^ d.length - 1 := by
  obtain ⟨m, hm, hkeys⟩ := generate_petals_ok_aux d fmt U hU hne
  refine ⟨m, hm, ?_⟩
  have := congrArg List.length hkeys
  simpa [generate_logics_length] using this

theorem C10_no_cardinality_validation_witness :
    (setUnionV [({1} : Finset ℕ)] = Except.ok {1} ∧ ({1} : Finset ℕ).Nonempty ∧
      (∃ m, generate_petals [({1} : Finset ℕ)] (fun _ _ _ => "") = Except.ok m ∧
        m.length = 2 ^ ([({1} : Finset ℕ)]).length - 1)) ∧
    (setUnionV [({1} : Finset ℕ), {1}, {1}, {1}, {1}, {1}, {1}] = Except.ok {1} ∧
      (∃ m, generate_petals [({1} : Finset ℕ), {1}, {1}, {1}, {1}, {1}, {1}]
          (fun _ _ _ => "") = Except.ok m ∧
        m.length = 2 ^ ([({1} : Finset ℕ), {1}, {1}, {1}, {1}, {1}, {1}]).length - 1)) :=
  ⟨⟨by decide, by decide,
      C10_no_cardinality_validation [({1} : Finset ℕ)] (fun _ _ _ => "") {1}
        (by decide) (by decide)⟩,
    ⟨by decide,
      C10_no_cardinality_validation [({1} : Finset ℕ), {1}, {1}, {1}, {1}, {1}, {1}]
        (fun _ _ _ => "") {1} (by decide) (by decide)⟩⟩

/-- Petal formula as the specification words it: the Universe intersected
with the intersection of the datasets whose bit is 1, minus the union of the
datasets whose bit is 0. -/
def specPetal {α : Type} [DecidableEq α] (datasets : List (Finset α)) (U : Finset α)
    (p : List Char) : Finset α :=
  (((List.range datasets.length).filter (fun i => p.getD i ' ' == '1')).foldl
      (fun acc i => acc ∩ datasets.getD i ∅) U) \
  (((List.range datasets.length).filter (fun i => p.getD i ' ' == '0')).foldl
      (fun acc i => acc ∪ datasets.getD i ∅) ∅)

theorem specPetal_eq_folds {α : Type} [DecidableEq α] (d : List (Finset α)) (U : Finset α)
    (p : List Char) :
    specPetal d U p = ((included_sets d p).foldl (fun a s => a ∩ s) U) \
      ((excluded_sets d p).foldl (fun a s => a ∪ s) ∅) := by
  unfold specPetal included_sets excluded_sets
  rw [List.foldl_map, List.foldl_map]

theorem map_getD_range {β : Type} (l : List β) (x0 : β) :
    (List.range l.length).map (fun i => l.getD i x0) = l := by
  apply List.ext_getElem (by simp)
  intro i h1 h2
  rw [List.getElem_map, List.getElem_range, List.getD_eq_getElem _ _ h2]

theorem replicate_getD {β : Type} (n i : Nat) (c x0 : β) (hi : i < n) :
    (List.replicate n c).getD i x0 = c := by
  rw [List.getD_eq_getElem _ _ (by simpa using hi), List.getElem_replicate]

/-- C3: for every pattern produced for the datasets, the petal set computed
by the code equals the specification formula
`(Universe ∩ ⋂ included) − (⋃ excluded)`; for the all-ones pattern the
excluded part is empty and the petal is exactly the intersection of all the
datasets. -/
theorem C3_petal_formula {α : Type} [DecidableEq α] (d : List (Finset α)) (U : Finset α)
    (p : List Char) (hU : setUnionV d = Except.ok U)
    (hp : p ∈ generate_logics d.length) :
    petal_set d U p = Except.ok (specPetal d U p) ∧
    (p = List.replicate d.length '1' →
      ∃ I, setIntersection d = Except.ok I ∧ petal_set d U p = Except.ok I) := by
  obtain ⟨S, hS⟩ := petal_set_exists d U p (logic_has_one _ p hp)
  have hSeq : S = specPetal d U p := by
    apply Finset.ext
    intro x
    rw [mem_petal_set d U p S hS x, specPetal_eq_folds]
    rw [Finset.mem_sdiff, mem_foldl_inter, mem_foldl_union]
    simp only [Finset.not_mem_empty, false_or]
    constructor
    · rintro ⟨hU2, hincl, hexcl⟩
      exact ⟨⟨hU2, hincl⟩, fun hex2 => by
        obtain ⟨s, hs, hx⟩ := hex2
        exact hexcl s hs hx⟩
    · rintro ⟨⟨hU2, hincl⟩, hexcl⟩
      exact ⟨hU2, hincl, fun s hs hx => hexcl ⟨s, hs, hx⟩⟩
  refine ⟨hSeq ▸ hS, ?_⟩
  intro hrep
  obtain ⟨i0, hi0, _⟩ := logic_has_one _ p hp
  have hdne : d ≠ [] := by
    intro h
    rw [h] at hi0
    simp at hi0
  obtain ⟨d0, dt, rfl⟩ := List.exists_cons_of_ne_nil hdne
  have hinc : included_sets (d0 :: dt) p = d0 :: dt := by
    unfold included_sets
    have hfil : (List.range (d0 :: dt).length).filter (fun i => p.getD i ' ' == '1')
        = List.range (d0 :: dt).length := by
      rw [List.filter_eq_self]
      intro i hi
      rw [hrep, replicate_getD _ _ _ _ (List.mem_range.mp hi)]
      simp
    rw [hfil, map_getD_range]
  have hexc : excluded_sets (d0 :: dt) p = [] := by
    unfold excluded_sets
    have hfil : (List.range (d0 :: dt).length).filter (fun i => p.getD i ' ' == '0')
        = [] := by
      rw [List.filter_eq_nil_iff]
      intro i hi
      rw [hrep, replicate_getD _ _ _ _ (List.mem_range.mp hi)]
      simp
    rw [hfil]
    rfl
  have hI_sub : List.foldl (fun a s => a ∩ s) d0 dt ⊆ U := by
    intro x hx
    have hx0 : x ∈ d0 := ((mem_foldl_inter dt d0 x).mp hx).1
    exact (mem_setUnionV _ U hU x).mpr ⟨d0, by simp, hx0⟩
  refine ⟨List.foldl (fun a s => a ∩ s) d0 dt, rfl, ?_⟩
  unfold petal_set
  rw [hinc, hexc]
  show Except.ok ((U ∩ List.foldl (fun a s => a ∩ s) d0 dt) \
      List.foldl (fun a s => a ∪ s) ∅ []) = _
  congr 1
  show (U ∩ List.foldl (fun a s => a ∩ s) d0 dt) \ ∅ = _
  rw [Finset.sdiff_empty, Finset.inter_eq_right.mpr hI_sub]

theorem C3_petal_formula_witness :
    setUnionV [({1, 2} : Finset ℕ), {2, 3}] = Except.ok {1, 2, 3} ∧
    ['1', '1'] ∈ generate_logics ([({1, 2} : Finset ℕ), {2, 3}]).length ∧
    (petal_set [({1, 2} : Finset ℕ), {2, 3}] {1, 2, 3} ['1', '1'] =
        Except.ok (specPetal [({1, 2} : Finset ℕ), {2, 3}] {1, 2, 3} ['1', '1']) ∧
      (['1', '1'] = List.replicate ([({1, 2} : Finset ℕ), {2, 3}]).length '1' →
        ∃ I, setIntersection [({1, 2} : Finset ℕ), {2, 3}] = Except.ok I ∧
          petal_set [({1, 2} : Finset ℕ), {2, 3}] {1, 2, 3} ['1', '1'] = Except.ok I)) :=
  ⟨by decide, by decide,
    C3_petal_formula [({1, 2} : Finset ℕ), {2, 3}] {1, 2, 3} ['1', '1']
      (by decide) (by decide)⟩

/-- C5: whenever the union of the supplied datasets is empty (for example
two empty datasets, N = 2), the petal computation raises — the percentage
division raises at the first pattern, before any entry is produced — so no
mapping (and no partial mapping, and no NaN/Inf value) is ever returned,
whatever the format template. -/
theorem C5_empty_universe {α : Type} [DecidableEq α] (datasets : List (Finset α))
    (fmt : List Char → Nat → ℚ → String)
    (hU : setUnionV datasets = Except.ok (∅ : Finset α)) :
    generate_petals datasets fmt = Except.error PyError.zeroDivision := by
  have hdne : datasets ≠ [] := setUnionV_ne_nil datasets ∅ hU
  have hn1 : 1 ≤ datasets.length := by
    cases datasets with
    | nil => exact absurd rfl hdne
    | cons a t => simp
  have hcard : (∅ : Finset α).card = 0 := rfl
  have hent : ∀ p ∈ generate_logics datasets.length,
      petalEntry datasets ∅ fmt p = Except.error PyError.zeroDivision := by
    intro p hp
    obtain ⟨S, hS⟩ := petal_set_exists datasets ∅ p (logic_has_one _ p hp)
    unfold petalEntry
    rw [hS]
    show (if ((∅ : Finset α)).card = 0 then Except.error PyError.zeroDivision
      else Except.ok (p, fmt p S.card
        ((100 * (S.card : ℚ)) / ((((∅ : Finset α)).card : ℚ))))) = _
    rw [if_pos hcard]
  have h2 : 1 ≤ 2 ^ datasets.length - 1 := by
    have hpow : 2 ≤ 2 ^ datasets.length := by
      calc 2 = 2 ^ 1 := rfl
        _ ≤ 2 ^ datasets.length := Nat.pow_le_pow_right (by omega) hn1
    omega
  have hnil : generate_logics datasets.length ≠ [] := by
    intro h
    have hlen := generate_logics_length datasets.length
    rw [h] at hlen
    simp at hlen
    omega
  obtain ⟨p0, hp0⟩ := List.exists_mem_of_ne_nil _ hnil
  unfold generate_petals
  rw [hU]
  exact exceptMap_error_of_mem (petalEntry datasets ∅ fmt) PyError.zeroDivision
    (generate_logics datasets.length) (fun b hb => Or.inr (hent b hb))
    ⟨p0, hp0, hent p0 hp0⟩

theorem C5_empty_universe_witness :
    setUnionV ([∅, ∅] : List (Finset ℕ)) = Except.ok (∅ : Finset ℕ) ∧
    generate_petals ([∅, ∅] : List (Finset ℕ)) defaultFmt =
      Except.error PyError.zeroDivision :=
  ⟨by decide, C5_empty_universe [∅, ∅] defaultFmt (by decide)⟩

/-- C7: the worked example. On datasets {1,2,3} and {2,3,4} with the default
template, the universe is {1,2,3,4} of size 4 and the petal mapping is
"01" → "1 (25.0%)", "10" → "1 (25.0%)", "11" → "2 (50.0%)". -/
theorem C7_example :
    generate_petals [({1, 2, 3} : Finset ℕ), {2, 3, 4}] =
      Except.ok [(['0', '1'], "1 (25.0%)"), (['1', '0'], "1 (25.0%)"),
        (['1', '1'], "2 (50.0%)")] ∧
    setUnionV [({1, 2, 3} : Finset ℕ), {2, 3, 4}] = Except.ok {1, 2, 3, 4} ∧
    ({1, 2, 3, 4} : Finset ℕ).card = 4 :=
  ⟨by with_unfolding_all rfl, by decide, by decide⟩

/-- C9: `generate_petals` is modelled by a pure function of its arguments —
the embedding required no state because the Python body only reads its
inputs — so two calls with the same datasets and template give identical
results. -/
theorem C9_deterministic {α : Type} [DecidableEq α] (datasets : List (Finset α))
    (fmt : List Char → Nat → ℚ → String) :
    generate_petals datasets fmt = generate_petals datasets fmt := rfl

theorem C9_deterministic_witness :
    generate_petals [({1, 2} : Finset ℕ)] defaultFmt =
      generate_petals [({1, 2} : Finset ℕ)] defaultFmt :=
  C9_deterministic [({1, 2} : Finset ℕ)] defaultFmt

/-! Embedding of the `venn` rendering boundary. -/

/-- Shape family drawn for N sets: ellipses for 2 ≤ N < 6, triangles for
N = 6, as selected by `venn`. -/
inductive ShapeKind where
  | ellipse : ShapeKind
  | triangle : ShapeKind
deriving DecidableEq

/-- Abstraction of the figure `venn` renders: the shape family drawn, the
number of datasets, and the petal texts drawn at the layout positions, in
layout-table order. The coordinates, colors, sizes and the axes object are
pure drawing data with no logical content and are not tracked. -/
structure Figure where
  shape : ShapeKind
  n_sets : Nat
  texts : List (List Char × String)
deriving DecidableEq

def msgInconsistent : String := "Inconsistent petal and dataset labels"

def msgCardinality : String := "Number of sets must be between 2 and 6"

/-- Modelled from the spec: the static layout table `PETAL_LABEL_COORDS`
lives in `venn/_constants.py`, which is not among the given sources. Per the
spec (external rendering collaborator), for each valid N it maps each
Pattern of the enumerator's sequence to a label-placement coordinate. Only
its key set matters to the claims below; the coordinate values are
placeholders. -/
def PETAL_LABEL_COORDS (n_sets : Nat) : List (List Char × (Int × Int)) :=
  (generate_logics n_sets).map (fun p => (p, (0, 0)))

/-- Embedding of the Python dict lookup `petals[logic]`: `KeyError` when the
key is absent. -/
def dictGet (petals : List (List Char × String)) (k : List Char) : Except PyError String :=
  match petals.lookup k with
  | some v => Except.ok v
  | none => Except.error PyError.keyError

/-- Embedding of the text-drawing loop of `venn`:
`for logic, (x, y) in PETAL_LABEL_COORDS[n_sets].items(): draw_text(ax, x, y,
petals[logic], fontsize)`, collecting what is drawn and raising `KeyError`
at the first missing key. -/
def drawTexts (petals : List (List Char × String)) (n_sets : Nat) :
    Except PyError (List (List Char × String)) :=
  exceptMap (fun pc =>
    match dictGet petals pc.1 with
    | Except.error e => Except.error e
    | Except.ok t => Except.ok (pc.1, t)) (PETAL_LABEL_COORDS n_sets)

/-- Embedding of `venn` from `venn/_venn.py`: check every petal key length
against the number of labels, select the shape family by N (raising for N
outside [2,6]), then draw the petal texts from the layout table. -/
def venn (petals : List (List Char × String)) (labels : List String) :
    Except PyError Figure :=
  if (petals.map Prod.fst).any (fun logic => logic.length != labels.length) then
    Except.error (PyError.valueError msgInconsistent)
  else if 2 ≤ labels.length ∧ labels.length < 6 then
    match drawTexts petals labels.length with
    | Except.error e => Except.error e
    | Except.ok texts => Except.ok (Figure.mk ShapeKind.ellipse labels.length texts)
  else if labels.length = 6 then
    match drawTexts petals labels.length with
    | Except.error e => Except.error e
    | Except.ok texts => Except.ok (Figure.mk ShapeKind.triangle labels.length texts)
  else Except.error (PyError.valueError msgCardinality)

theorem coords_fst (n : Nat) :
    (PETAL_LABEL_COORDS n).map Prod.fst = generate_logics n := by
  unfold PETAL_LABEL_COORDS
  rw [List.map_map]
  have hcomp : (Prod.fst ∘ fun p : List Char => (p, ((0 : Int), (0 : Int)))) = id := rfl
  rw [hcomp, List.map_id]

/-- C6: with a number of dataset labels outside [2,6] (and petal keys of the
matching length, so that the earlier consistency check passes), `venn`
raises the cardinality `ValueError` and produces no figure. -/
theorem C6_invalid_cardinality (petals : List (List Char × String)) (labels : List String)
    (hkeys : ∀ k ∈ petals.map Prod.fst, k.length = labels.length)
    (hn : labels.length < 2 ∨ 6 < labels.length) :
    venn petals labels = Except.error (PyError.valueError msgCardinality) := by
  unfold venn
  have h1 : ((petals.map Prod.fst).any (fun logic => logic.length != labels.length))
      = false := by
    rw [List.any_eq_false]
    intro k hk
    simp [hkeys k hk]
  rw [h1]
  simp only [Bool.false_eq_true, if_false]
  rw [if_neg (by omega), if_neg (by omega)]

theorem C6_invalid_cardinality_witness :
    (∀ k ∈ ([(['1'], "1 (100.0%)")]).map Prod.fst,
      k.length = (["A"] : List String).length) ∧
    ((["A"] : List String).length < 2 ∨ 6 < (["A"] : List String).length) ∧
    venn [(['1'], "1 (100.0%)")] ["A"] =
      Except.error (PyError.valueError msgCardinality) :=
  ⟨by decide, by decide,
    C6_invalid_cardinality [(['1'], "1 (100.0%)")] ["A"] (by decide) (by decide)⟩

/-- C8 counterexample: a petal mapping for N = 2 with an extra key "00" of
the correct length — a key no layout table for N = 2 expects — is NOT
rejected: `venn` renders the full diagram and silently ignores the extra
key, contradicting the claim that such a mismatch must fail. -/
theorem C8_counterexample :
    venn [(['1', '0'], "a"), (['0', '1'], "b"), (['1', '1'], "c"), (['0', '0'], "d")]
      ["A", "B"] =
    Except.ok (Figure.mk ShapeKind.ellipse 2
      [(['0', '1'], "b"), (['1', '0'], "a"), (['1', '1'], "c")]) := by
  decide

theorem drawTexts_ok (petals : List (List Char × String)) (n : Nat)
    (hall : ∀ p ∈ generate_logics n, (petals.lookup p).isSome) :
    ∃ texts, drawTexts petals n = Except.ok texts ∧
      texts.map Prod.fst = generate_logics n := by
  have hex : ∀ pc ∈ PETAL_LABEL_COORDS n, ∃ t,
      (match dictGet petals pc.1 with
        | Except.error e => Except.error e
        | Except.ok t => Except.ok (pc.1, t)) = Except.ok t := by
    intro pc hpc
    have hp1 : pc.1 ∈ generate_logics n := by
      have hm : pc.1 ∈ (PETAL_LABEL_COORDS n).map Prod.fst :=
        List.mem_map.mpr ⟨pc, hpc, rfl⟩
      rwa [coords_fst] at hm
    have hsome := hall pc.1 hp1
    cases hl : petals.lookup pc.1 with
    | none => rw [hl] at hsome; simp at hsome
    | some v => exact ⟨(pc.1, v), by simp [dictGet, hl]⟩
  obtain ⟨texts, ht, hF⟩ := exceptMap_ok_of_forall
    (fun pc =>
      match dictGet petals pc.1 with
      | Except.error e => Except.error e
      | Except.ok t => Except.ok (pc.1, t)) (PETAL_LABEL_COORDS n) hex
  refine ⟨texts, ht, ?_⟩
  have hlen := hF.length_eq
  have hget := (List.forall₂_iff_get.mp hF).2
  rw [← coords_fst n]
  apply List.ext_getElem (by simpa using hlen.symm)
  intro k h1 h2
  have hkt : k < texts.length := by simpa using h1
  have hkc : k < (PETAL_LABEL_COORDS n).length := by simpa using h2
  rw [List.getElem_map, List.getElem_map]
  have hk := hget k hkc hkt
  simp only [List.get_eq_getElem] at hk
  cases hl : petals.lookup ((PETAL_LABEL_COORDS n)[k]).1 with
  | none =>
    simp only [dictGet, hl] at hk
    exact Except.noConfusion hk
  | some v =>
    simp only [dictGet, hl] at hk
    injection hk with hk
    rw [← hk]

/-- C8 (amended): at the rendering boundary, for 2 ≤ N ≤ 6: a petal key
whose length differs from N fails fast with the consistency `ValueError`; a
layout-table pattern missing from the petal mapping fails fast with
`KeyError` (no figure is returned); but — contrary to the original claim —
an extra petal key of the correct length N that the layout table does not
expect is silently ignored: when every layout pattern is present, `venn`
succeeds and draws exactly the layout patterns, whatever extra keys the
mapping has. -/
theorem C8_boundary_mismatch (petals : List (List Char × String)) (labels : List String)
    (h2 : 2 ≤ labels.length) (h6 : labels.length ≤ 6) :
    ((∃ k ∈ petals.map Prod.fst, k.length ≠ labels.length) →
      venn petals labels = Except.error (PyError.valueError msgInconsistent)) ∧
    ((∀ k ∈ petals.map Prod.fst, k.length = labels.length) →
      (∃ p ∈ generate_logics labels.length, petals.lookup p = none) →
      venn petals labels = Except.error PyError.keyError) ∧
    ((∀ k ∈ petals.map Prod.fst, k.length = labels.length) →
      (∀ p ∈ generate_logics labels.length, (petals.lookup p).isSome) →
      ∃ fig, venn petals labels = Except.ok fig ∧
        fig.texts.map Prod.fst = generate_logics labels.length) := by
  refine ⟨?_, ?_, ?_⟩
  · rintro ⟨k, hk, hne⟩
    unfold venn
    have h1 : ((petals.map Prod.fst).any (fun logic => logic.length != labels.length))
        = true := by
      rw [List.any_eq_true]
      exact ⟨k, hk, by simpa using hne⟩
    rw [h1]
    simp
  · rintro hkeys ⟨p, hp, hmiss⟩
    have hfalse : ((petals.map Prod.fst).any
        (fun logic => logic.length != labels.length)) = false := by
      rw [List.any_eq_false]
      intro k hk
      simp [hkeys k hk]
    have hdt : drawTexts petals labels.length = Except.error PyError.keyError := by
      apply exceptMap_error_of_mem
      · intro pc _
        cases hl : petals.lookup pc.1 with
        | some v => exact Or.inl ⟨(pc.1, v), by simp [dictGet, hl]⟩
        | none => exact Or.inr (by simp [dictGet, hl])
      · refine ⟨(p, (0, 0)), ?_, ?_⟩
        · unfold PETAL_LABEL_COORDS
          exact List.mem_map.mpr ⟨p, hp, rfl⟩
        · simp [dictGet, hmiss]
    unfold venn
    rw [hfalse]
    simp only [Bool.false_eq_true, if_false]
    by_cases hn6 : labels.length = 6
    · rw [if_neg (by omega), if_pos hn6, hdt]
    · rw [if_pos ⟨h2, by omega⟩, hdt]
  · intro hkeys hall
    obtain ⟨texts, ht, hfst⟩ := drawTexts_ok petals labels.length hall
    have hfalse : ((petals.map Prod.fst).any
        (fun logic => logic.length != labels.length)) = false := by
      rw [List.any_eq_false]
      intro k hk
      simp [hkeys k hk]
    unfold venn
    rw [hfalse]
    simp only [Bool.false_eq_true, if_false]
    by_cases hn6 : labels.length = 6
    · refine ⟨Figure.mk ShapeKind.triangle labels.length texts, ?_, hfst⟩
      rw [if_neg (by omega), if_pos hn6, ht]
    · refine ⟨Figure.mk ShapeKind.ellipse labels.length texts, ?_, hfst⟩
      rw [if_pos ⟨h2, by omega⟩, ht]

theorem C8_boundary_mismatch_witness :
    (2 ≤ (["A", "B"] : List String).length ∧ (["A", "B"] : List String).length ≤ 6) ∧
    (((∃ k ∈ ([(['1', '0'], "a"), (['0', '1'], "b"), (['1', '1'], "c")]).map Prod.fst,
        k.length ≠ (["A", "B"] : List String).length) →
      venn [(['1', '0'], "a"), (['0', '1'], "b"), (['1', '1'], "c")] ["A", "B"] =
        Except.error (PyError.valueError msgInconsistent)) ∧
    ((∀ k ∈ ([(['1', '0'], "a"), (['0', '1'], "b"), (['1', '1'], "c")]).map Prod.fst,
        k.length = (["A", "B"] : List String).length) →
      (∃ p ∈ generate_logics (["A", "B"] : List String).length,
        ([(['1', '0'], "a"), (['0', '1'], "b"), (['1', '1'], "c")]).lookup p = none) →
      venn [(['1', '0'], "a"), (['0', '1'], "b"), (['1', '1'], "c")] ["A", "B"] =
        Except.error PyError.keyError) ∧
    ((∀ k ∈ ([(['1', '0'], "a"), (['0', '1'], "b"), (['1', '1'], "c")]).map Prod.fst,
        k.length = (["A", "B"] : List String).length) →
      (∀ p ∈ generate_logics (["A", "B"] : List String).length,
        (([(['1', '0'], "a"), (['0', '1'], "b"), (['1', '1'], "c")]).lookup p).isSome) →
      ∃ fig, venn [(['1', '0'], "a"), (['0', '1'], "b"), (['1', '1'], "c")] ["A", "B"] =
          Except.ok fig ∧
        fig.texts.map Prod.fst = generate_logics (["A", "B"] : List String).length)) :=
  ⟨⟨by decide, by decide⟩,
    C8_boundary_mismatch [(['1', '0'], "a"), (['0', '1'], "b"), (['1', '1'], "c")]
      ["A", "B"] (by decide) (by decide)⟩

end PyVenn
